import Mathlib

/-!
Verification of the multi-room chat relay (warp websocket chat server).

The embedding below models the core of `src/lib.rs` (the library: `ChatRoom`,
its logging task, `get_room`, `user_connected` message handling, `user_message`,
`user_disconnected`) and, where a claim cites it, the older variant kept in
`src/main.rs` (`get_channel` / `upgrade`).

Modelling conventions:
- `warp::ws::Message` is an inductive over the frame kinds that matter
  (`Text`, `Binary`, `Ping`, `Pong`, `Close`); `is_text` is true exactly on
  text frames and `to_str` succeeds exactly on text frames, as in warp.
- The per-room logging task spawned in `ChatRoom::new` is a loop over two
  unbounded channels (`rx` for lines, `cancellation_rx` for shutdown).
  A finite run of that loop is modelled by `writerRun`, parameterised by the
  queue contents, the number of pending shutdown signals, a schedule oracle
  deciding the branch `tokio::select!` picks when both are ready, and an
  error oracle deciding whether each `write_all` fails.
- `HashMap` registries are association lists with distinct keys; the per-room
  user map is a list of connection ids (the sink half of each entry is only
  observed through delivery attempts, which we collect as `(id, text)` pairs).
- `Weak`/`Arc` liveness is a set (`List Nat`) of room ids whose strong count
  is positive; `Weak::upgrade` succeeds exactly on members of that set.
-/

namespace ChatServer

/-- The websocket frame kinds relevant to the server (warp `Message`). -/
inductive Message where
  | text (s : String)
  | binary (payload : List Nat)
  | ping
  | pong
  | close
deriving DecidableEq

/-- `Message::is_text` in warp: true exactly on text frames. -/
def Message.is_text : Message → Bool
  | .text _ => true
  | _ => false

/-- `Message::to_str` in warp: `Ok(s)` on a text frame, `Err(())` otherwise. -/
def Message.to_str : Message → Option String
  | .text s => some s
  | _ => none

/-- The payload `log_message` sends to the logging task:
`format "Channel \x7b\x7d, user \x7b\x7d: \x7b\x7d"` applied to the room
name, the user id and the message (`src/lib.rs`, `ChatRoom::log_message`). -/
def logLine (name : String) (user_id : Nat) (msg : String) : String :=
  "Channel " ++ name ++ ", user " ++ toString user_id ++ ": " ++ msg

/-- What the logging task writes to the sink for one received payload:
`format "\x7b\x7d\n"` of the payload (`src/lib.rs`, `ChatRoom::new`). -/
def writeLineOut (message : String) : String := message ++ "\n"

/-- A finite run of the logging-task loop from `ChatRoom::new`.

`queue` is the FIFO content of the line channel, `cancels` the number of
pending shutdown signals, `sched` decides which ready branch the
`tokio::select!` takes (`true` = the cancellation branch) when both are
ready, and `errs` decides whether each `write_all` call fails (a failed
write is logged to stderr and the loop continues). The result is the list
of lines actually written to the sink, in order.

Mirrors the source: when a shutdown signal is consumed the loop `break`s at
once — it does not drain the line channel first. -/
def writerRun : List String → Nat → List Bool → List Bool → List String
  | [], _, _, _ => []
  | l :: rest, cancels, sched, errs =>
    if (cancels != 0) && sched.headD false then
      []
    else if errs.headD false then
      writerRun rest cancels sched.tail errs.tail
    else
      writeLineOut l :: writerRun rest cancels sched.tail errs.tail

/-- Observable outcome of the whole logging task: the lines written during
the loop, and whether the post-loop `flush` was reached (it always is). -/
structure WriterResult where
  written : List String
  flushed : Bool
deriving DecidableEq

/-- The full logging task of `ChatRoom::new`: run the loop, then flush. -/
def writerTask (queue : List String) (cancels : Nat)
    (sched errs : List Bool) : WriterResult :=
  ⟨writerRun queue cancels sched errs, true⟩

/-- Per-room user map: the ids currently registered (the `HashMap` keys of
`Users`); map keys are distinct. -/
abbrev Users := List Nat

/-- The text broadcast for a message from `my_id`:
`format "<User#\x7b\x7d>: \x7b\x7d"` (`src/lib.rs`, `user_message`). -/
def formatBroadcast (my_id : Nat) (msg : String) : String :=
  "<User#" ++ toString my_id ++ ">: " ++ msg

/-- `user_message` (`src/lib.rs`): iterate over the user map and attempt one
send of the formatted text to every entry except the sender. The result is
the list of delivery attempts `(receiver id, text)`; a send to a closed sink
is silently dropped in the source and does not change the attempt set. -/
def user_message (my_id : Nat) (msg : String) : Users → List (Nat × String)
  | [] => []
  | uid :: rest =>
      if my_id != uid then
        (uid, formatBroadcast my_id msg) :: user_message my_id msg rest
      else
        user_message my_id msg rest

/-- `user_disconnected` (`src/lib.rs`): remove the id from the user map. -/
def user_disconnected (my_id : Nat) (users : Users) : Users :=
  users.filter fun uid => uid != my_id

/-- In-memory state of one `ChatRoom`: its name, its user map, and the FIFO
content of the logging channel (`logging_tx`). -/
structure ChatRoom where
  name : String
  users : Users
  logQueue : List String
deriving DecidableEq

/-- `ChatRoom::log_message` (`src/lib.rs`): send the formatted line on the
logging channel (on send failure the line is only reported to stderr; the
success path appends it to the queue). -/
def ChatRoom.log_message (room : ChatRoom) (msg : String) (user_id : Nat) :
    ChatRoom :=
  { room with logQueue := room.logQueue ++ [logLine room.name user_id msg] }

/-- `ChatRoom::broadcast` (`src/lib.rs`): the body of this public method is
empty, so it leaves the room untouched and attempts no delivery. -/
def ChatRoom.broadcast (room : ChatRoom) (msg : String) :
    ChatRoom × List (Nat × String) :=
  (room, [])

/-- One iteration of the inbound loop of `user_connected` (`src/lib.rs`) on a
successfully received frame: text frames are logged and fanned out; inside
the `is_text` guard a failing `to_str` logs the sentinel line; everything
else falls through the guard untouched. Returns the updated room state and
the broadcast delivery attempts. -/
def handleFrame (my_id : Nat) (msg : Message) (room : ChatRoom) :
    ChatRoom × List (Nat × String) :=
  if msg.is_text then
    match msg.to_str with
    | some s => (room.log_message s my_id, user_message my_id s room.users)
    | none =>
        (room.log_message "!!!ATTEMPTED TO SEND NON-TEXT MESSAGE!!!" my_id, [])
  else
    (room, [])

/-- State of the room registry (`ChatRooms` in `src/lib.rs`, `Channels` in
`src/main.rs`): name-to-room entries (weak references, stored as room ids),
the set of room ids whose strong count is positive, and the next fresh room
id (allocation is monotone, so every existing id is below `nextId`). -/
structure Registry where
  entries : List (String × Nat)
  alive : List Nat
  nextId : Nat
deriving DecidableEq

/-- `HashMap::insert`: bind `k` to `v`, replacing any previous binding. -/
def mapInsert (k : String) (v : Nat) (m : List (String × Nat)) :
    List (String × Nat) :=
  (k, v) :: m.filter fun e => e.1 != k

/-- `get_room` (`src/lib.rs`): prune entries whose room has no owner left
(`retain` on `strong_count > 0`), look the name up and upgrade the weak
reference; on a miss construct a fresh room, record a weak reference to it
under the name, and return it. Returns the room id and the new state. -/
def get_room (room_name : String) (s : Registry) : Nat × Registry :=
  let retained := s.entries.filter fun e => s.alive.contains e.2
  let maybe_room :=
    match retained.find? (fun e => e.1 == room_name) with
    | some e => if s.alive.contains e.2 then some e.2 else none
    | none => none
  match maybe_room with
  | some room => (room, { s with entries := retained })
  | none =>
      let room := s.nextId
      (room, ⟨mapInsert room_name room retained, room :: s.alive,
              s.nextId + 1⟩)

/-- `get_channel` (`src/main.rs`): if the name is present, return
`upgrade()` of the stored weak reference as-is — `none` when the entry is
stale; only on a missing name construct and insert a fresh channel. -/
def get_channel (channel_name : String) (s : Registry) :
    Option Nat × Registry :=
  match s.entries.find? (fun e => e.1 == channel_name) with
  | some e => (if s.alive.contains e.2 then some e.2 else none, s)
  | none =>
      let c := s.nextId
      (some c, ⟨mapInsert channel_name c s.entries, c :: s.alive,
                s.nextId + 1⟩)

/-- The transcript file name computed in `ChatRoom::new` (`src/lib.rs`):
`format "\x7b\x7d_\x7b\x7d.log"` of the room name and the RFC3339 rendering
of the creation time (the rendering is passed in as a string). -/
def file_name (name : String) (rfc3339_now : String) : String :=
  name ++ "_" ++ rfc3339_now ++ ".log"

/-- Modelled from the spec: the sink name the spec states,
`\x7broom_name\x7d_\x7bcreation_time_RFC3339\x7d`, with no extension. -/
def specSinkName (name : String) (rfc3339_now : String) : String :=
  name ++ "_" ++ rfc3339_now

/-- The keys of an association list. -/
def keysOf (m : List (String × Nat)) : List String := m.map Prod.fst

/-! ### Helper lemmas -/

/-- While no shutdown signal is pending and no write fails, the logging loop
writes every queued line, in queue order. -/
lemma writerRun_no_errs (lines : List String) (sched : List Bool) :
    writerRun lines 0 sched [] = lines.map writeLineOut := by
  induction lines generalizing sched with
  | nil => rfl
  | cons l rest ih => simp [writerRun, ih]

/-- `user_message` in closed form: one attempt per registered id other than
the sender, each carrying the formatted text. -/
lemma user_message_eq (S : Nat) (msg : String) (users : Users) :
    user_message S msg users
      = (users.filter fun uid => S != uid).map
          fun uid => (uid, formatBroadcast S msg) := by
  induction users with
  | nil => rfl
  | cons u us ih =>
      cases h : S != u <;> simp [user_message, List.filter_cons, h, ih]

/-- In a key-distinct association list, an entry is determined by its key. -/
lemma entry_unique_of_keysNodup {m : List (String × Nat)}
    (hnd : (keysOf m).Nodup) {a b : String × Nat}
    (ha : a ∈ m) (hb : b ∈ m) (hk : a.1 = b.1) : a = b :=
  List.inj_on_of_nodup_map hnd ha hb hk

/-- `mapInsert` preserves distinctness of keys. -/
lemma keysNodup_mapInsert (k : String) (v : Nat) (m : List (String × Nat))
    (hnd : (keysOf m).Nodup) : (keysOf (mapInsert k v m)).Nodup := by
  simp only [mapInsert, keysOf, List.map_cons, List.nodup_cons]
  refine ⟨?_, ?_⟩
  · intro hmem
    rcases List.mem_map.mp hmem with ⟨e, he, hek⟩
    have := List.of_mem_filter he
    simp [hek] at this
  · exact ((List.filter_sublist m).map Prod.fst).nodup hnd

/-- Keys of a filtered association list stay distinct. -/
lemma keysNodup_filter (p : String × Nat → Bool) (m : List (String × Nat))
    (hnd : (keysOf m).Nodup) : (keysOf (m.filter p)).Nodup :=
  ((List.filter_sublist m).map Prod.fst).nodup hnd

/-- In a duplicate-free list every member is counted exactly once. -/
lemma count_one_of_nodup_mem {α : Type} [BEq α] [LawfulBEq α] {l : List α}
    {a : α} (h : l.Nodup) (hm : a ∈ l) : l.count a = 1 := by
  induction l with
  | nil => cases hm
  | cons b bs ih =>
      rcases List.mem_cons.mp hm with rfl | hmem
      · rw [List.count_cons_self,
          List.count_eq_zero.mpr (List.nodup_cons.mp h).1]
      · have hne : a ≠ b := by
          rintro rfl
          exact (List.nodup_cons.mp h).1 hmem
        rw [List.count_cons_of_ne hne]
        exact ih (List.nodup_cons.mp h).2 hmem

/-- `get_room` hands back either a room that was already live in the input
state or the freshly allocated id `nextId`. -/
lemma get_room_live_or_fresh (name : String) (s : Registry) :
    s.alive.contains (get_room name s).1 = true
      ∨ (get_room name s).1 = s.nextId := by
  simp only [get_room]
  cases hf : (s.entries.filter fun e => s.alive.contains e.2).find?
      (fun e => e.1 == name) with
  | none => simp only [hf]; simp
  | some e =>
      cases hc : s.alive.contains e.2 with
      | false => simp only [hf, hc]; simp
      | true =>
          have hm : e.2 ∈ s.alive := by simpa using hc
          simp only [hf, hc]
          simp [hm]

/-! ### Claim theorems -/

/-- C1. The claim states that on delivery of the shutdown signal the writer
first consumes every already-enqueued line, then flushes, then stops. In the
source the `tokio::select!` loop `break`s as soon as the cancellation branch
fires, without draining the line channel: with one line enqueued and one
shutdown signal pending, a run whose select picks the cancellation branch
writes nothing (and still reaches the flush), so the enqueued line is lost;
had no shutdown signal been pending, the same line would have been written. -/
theorem shutdown_drops_enqueued_line :
    writerTask [logLine "lobby" 1 "hi"] 1 [true] [] = ⟨[], true⟩
      ∧ writerTask [logLine "lobby" 1 "hi"] 0 [true] []
          = ⟨[writeLineOut (logLine "lobby" 1 "hi")], true⟩ := by
  constructor <;> rfl

/-- A room state used to exercise `handleFrame` at concrete inputs. -/
def roomDemo : ChatRoom := ⟨"lobby", [1, 2], []⟩

/-- C3. The claim states that a non-text frame is recorded as the sentinel
line and broadcast to nobody. In the source the sentinel branch sits inside
the `is_text` guard, and `to_str` succeeds on every text frame, so a binary
frame from user 1 falls through the guard: nothing is logged (the log queue
stays empty, no sentinel) and nothing is broadcast. -/
theorem nontext_frame_silently_dropped :
    handleFrame 1 (Message.binary [7]) roomDemo = (roomDemo, [])
      ∧ (handleFrame 1 (Message.binary [7]) roomDemo).1.logQueue = [] := by
  constructor <;> rfl

/-- C4. Transcript order equals submission order: a run of the room's own
logging task over the lines submitted for messages `m1..mN` (no shutdown
pending, no write error) writes exactly the lines for `m1..mN`, in that
order. Each room's task owns its own sink and consumes only its own queue,
so no line of another room can appear in it. -/
theorem transcript_order_eq_submission_order (R : String)
    (msgs : List (Nat × String)) (sched : List Bool) :
    writerRun (msgs.map fun p => logLine R p.1 p.2) 0 sched []
      = msgs.map fun p => writeLineOut (logLine R p.1 p.2) := by
  rw [writerRun_no_errs, List.map_map]
  rfl

/-- A registry holding one stale entry: room id 0 for "room1" has no owner
left (`alive` is empty). -/
def staleReg : Registry := ⟨[("room1", 0)], [], 1⟩

/-- C6. On a registry whose entry for "room1" is stale, the library's
`get_room` (src/lib.rs) prunes the entry and constructs a fresh live room —
no failure path. The binary's `get_channel` (src/main.rs) instead returns
`upgrade()` of the stale reference, i.e. `None`, which its caller `upgrade`
immediately `unwrap()`s — a panic, contradicting the claim that a stale
entry never causes a failure. -/
theorem stale_entry_upgrade_returns_none :
    (get_channel "room1" staleReg).1 = none
      ∧ (get_room "room1" staleReg).1 = 1
      ∧ (get_room "room1" staleReg).2.alive = [1]
      ∧ (get_room "room1" staleReg).2.entries = [("room1", 1)] := by
  refine ⟨rfl, rfl, rfl, rfl⟩

/-- C8. Every transcript line written for a text message from connection `U`
in room `R` is exactly `Channel R, user U: msg` followed by a newline: the
line the inbound loop enqueues for a text frame is `logLine` of the room
name, the sender and the text, and the writer appends exactly that string
plus a newline. -/
theorem transcript_line_format (R : String) (U : Nat) (m : String)
    (room : ChatRoom) :
    writeLineOut (logLine R U m)
        = "Channel " ++ R ++ ", user " ++ toString U ++ ": " ++ m ++ "\n"
      ∧ (handleFrame U (Message.text m) room).1.logQueue
          = room.logQueue ++ [logLine room.name U m] := by
  constructor <;> rfl

/-- C9 counterexample. The claim names the sink
`\x7broom_name\x7d_\x7bcreation_time_RFC3339\x7d`; the source appends a
`.log` extension, so at room "lobby" the two names differ. -/
theorem sink_name_missing_log_suffix :
    file_name "lobby" "2026-10-12T00:00:00Z"
      ≠ specSinkName "lobby" "2026-10-12T00:00:00Z" := by
  decide

/-- C9 amended. Each Room instance names its sink
`\x7broom_name\x7d_\x7bcreation_time_RFC3339\x7d.log`; since the creation
time is part of the name, a room recreated at a different creation time gets
a new file of its own rather than appending to the previous one. -/
theorem sink_name_with_log_suffix (room t1 t2 : String) (h : t1 ≠ t2) :
    file_name room t1 = specSinkName room t1 ++ ".log"
      ∧ file_name room t1 ≠ file_name room t2 := by
  refine ⟨rfl, fun he => h ?_⟩
  have hd := String.ext_iff.mp he
  simp only [file_name, String.data_append, List.append_assoc,
    List.append_cancel_left_eq, List.append_cancel_right_eq] at hd
  exact String.ext_iff.mpr hd

/-- Witness for C9: concrete distinct creation times give distinct files. -/
theorem sink_name_with_log_suffix_witness :
    file_name "lobby" "t1" = specSinkName "lobby" "t1" ++ ".log"
      ∧ file_name "lobby" "t1" ≠ file_name "lobby" "t2" :=
  sink_name_with_log_suffix "lobby" "t1" "t2" (by decide)

/-- C10. The public method `ChatRoom::broadcast` is a no-op: it returns the
room unchanged and attempts no delivery, for every state and message. The
actual fan-out is the free function `user_message`, which attempts exactly
one delivery of the formatted text to each registered id other than the
sender. -/
theorem chatroom_broadcast_is_noop (room : ChatRoom) (msg : String)
    (S : Nat) :
    ChatRoom.broadcast room msg = (room, [])
      ∧ user_message S msg room.users
          = (room.users.filter fun uid => S != uid).map
              fun uid => (uid, formatBroadcast S msg) :=
  ⟨rfl, user_message_eq S msg room.users⟩

/-- C7. A per-line write failure is recovered locally: with a failing
`write_all` on the line `a`, the logging loop skips exactly that line and
keeps writing every later line in order. Independently, the broadcast a
client observes for a text frame is computed by `user_message` from the user
map alone — it does not consult the writer, so transcript write failures are
invisible to clients. -/
theorem write_error_logged_and_loop_continues (pre post : List String)
    (a : String) (sched : List Bool) (my_id : Nat) (s : String)
    (room : ChatRoom) :
    writerRun (pre ++ a :: post) 0 sched
        (List.replicate pre.length false ++ [true])
      = (pre ++ post).map writeLineOut
      ∧ (handleFrame my_id (Message.text s) room).2
          = user_message my_id s room.users := by
  refine ⟨?_, rfl⟩
  induction pre generalizing sched with
  | nil => simp [writerRun, writerRun_no_errs]
  | cons p ps ih => simp [writerRun, List.replicate_succ, ih]

/-- C5. For a text message from sender `S`: every registered id other than
`S` receives exactly one delivery attempt of the formatted text, `S`
receives none, and after `B` detaches a further message from `S` is
attempted only at the remaining ids (never at `B`, and at every id that is
neither `S` nor `B`). -/
theorem broadcast_excludes_sender (users : Users) (h : users.Nodup)
    (S B : Nat) (m1 m2 : String) :
    (∀ u ∈ users, u ≠ S →
        (user_message S m1 users).count (u, formatBroadcast S m1) = 1)
      ∧ (∀ p ∈ user_message S m1 users, p.1 ≠ S)
      ∧ (∀ p ∈ user_message S m2 (user_disconnected B users), p.1 ≠ B)
      ∧ (∀ u ∈ users, u ≠ S → u ≠ B →
          (u, formatBroadcast S m2)
            ∈ user_message S m2 (user_disconnected B users)) := by
  have ginj : ∀ c : String,
      Function.Injective (fun uid : Nat => (uid, c)) := by
    intro c a b hab
    exact congrArg Prod.fst hab
  refine ⟨?_, ?_, ?_, ?_⟩
  · intro u hu huS
    rw [user_message_eq]
    have hnodup : ((users.filter fun uid => S != uid).map
        fun uid => (uid, formatBroadcast S m1)).Nodup :=
      (h.filter _).map (ginj _)
    have hmem : (u, formatBroadcast S m1)
        ∈ (users.filter fun uid => S != uid).map
            fun uid => (uid, formatBroadcast S m1) :=
      List.mem_map.mpr
        ⟨u, List.mem_filter.mpr ⟨hu, bne_iff_ne.mpr (Ne.symm huS)⟩, rfl⟩
    exact count_one_of_nodup_mem hnodup hmem
  · intro p hp
    rw [user_message_eq] at hp
    rcases List.mem_map.mp hp with ⟨uid, humem, rfl⟩
    exact Ne.symm (bne_iff_ne.mp (List.mem_filter.mp humem).2)
  · intro p hp
    rw [user_message_eq] at hp
    rcases List.mem_map.mp hp with ⟨uid, humem, rfl⟩
    have := List.mem_filter.mp (List.mem_filter.mp humem).1
    exact bne_iff_ne.mp this.2
  · intro u hu huS huB
    rw [user_message_eq]
    refine List.mem_map.mpr ⟨u, List.mem_filter.mpr ⟨?_, ?_⟩, rfl⟩
    · exact List.mem_filter.mpr ⟨hu, bne_iff_ne.mpr huB⟩
    · exact bne_iff_ne.mpr (Ne.symm huS)

/-- Witness for C5: in a room with occupants 1, 2, 3 and sender 1, occupant
2 receives exactly one delivery attempt. -/
theorem broadcast_excludes_sender_witness :
    (user_message 1 "hi" [1, 2, 3]).count (2, formatBroadcast 1 "hi") = 1 :=
  (broadcast_excludes_sender [1, 2, 3] (by decide) 1 2 "hi" "yo").1
    2 (by decide) (by decide)

/-- C2. With distinct registry keys: as long as the room registered for
`name` is still owned by someone (positive strong count), `get_room name`
returns exactly that room; once a room `r` has been destroyed, `get_room`
never returns `r` again (it returns a live survivor or a fresh id); and the
resulting registry still has at most one entry per name. -/
theorem get_room_identity (s : Registry) (name : String)
    (hnd : (keysOf s.entries).Nodup) :
    (∀ r, (name, r) ∈ s.entries → s.alive.contains r = true →
        (get_room name s).1 = r)
      ∧ (∀ r, s.alive.contains r = false → r < s.nextId →
          (get_room name s).1 ≠ r)
      ∧ (keysOf (get_room name s).2.entries).Nodup := by
  refine ⟨?_, ?_, ?_⟩
  · intro r hmem halive
    have hmemret : (name, r)
        ∈ s.entries.filter fun e => s.alive.contains e.2 :=
      List.mem_filter.mpr ⟨hmem, halive⟩
    have hsome : ((s.entries.filter fun e => s.alive.contains e.2).find?
        (fun e => e.1 == name)).isSome :=
      List.find?_isSome.mpr ⟨(name, r), hmemret, by simp⟩
    rcases Option.isSome_iff_exists.mp hsome with ⟨e, hf⟩
    have hkey : e.1 = name := by simpa using List.find?_some hf
    have hein : e ∈ s.entries :=
      List.mem_of_mem_filter (List.mem_of_find?_eq_some hf)
    have heq : e = (name, r) :=
      entry_unique_of_keysNodup hnd hein hmem hkey
    rw [heq] at hf
    have halive' : r ∈ s.alive := by simpa using halive
    simp only [get_room, hf]
    simp [halive']
  · intro r hdead hlt heq
    rcases get_room_live_or_fresh name s with hl | hfr
    · rw [heq, hdead] at hl
      exact Bool.false_ne_true hl
    · rw [heq] at hfr
      exact absurd hfr (Nat.ne_of_lt hlt)
  · cases hf : (s.entries.filter fun e => s.alive.contains e.2).find?
        (fun e => e.1 == name) with
    | none =>
        simp only [get_room, hf]
        exact keysNodup_mapInsert _ _ _ (keysNodup_filter _ _ hnd)
    | some e =>
        cases hc : s.alive.contains e.2 with
        | false =>
            simp only [get_room, hf, hc]
            exact keysNodup_mapInsert _ _ _ (keysNodup_filter _ _ hnd)
        | true =>
            simp only [get_room, hf, hc]
            exact keysNodup_filter _ _ hnd

/-- A registry whose room 0 for "lobby" is still owned. -/
def regDemo : Registry := ⟨[("lobby", 0)], [0], 1⟩

/-- A registry whose room 5 for "other" has been destroyed. -/
def regDead : Registry := ⟨[("other", 5)], [], 6⟩

/-- Witness for C2: while room 0 for "lobby" is live, `get_room` returns it;
after room 5 for "other" died, `get_room` no longer returns it. -/
theorem get_room_identity_witness :
    (get_room "lobby" regDemo).1 = 0 ∧ (get_room "other" regDead).1 ≠ 5 :=
  ⟨(get_room_identity regDemo "lobby" (by decide)).1 0 (by decide)
      (by decide),
   (get_room_identity regDead "other" (by decide)).2.1 5 (by decide)
      (by decide)⟩

end ChatServer
